import Mathlib

/-!
A shallow embedding of the `http_client` command-line HTTP client
(`src/main.rs`) and proofs about it.

Strings that the Rust program manipulates are modelled as `List Nat` of
their character values.  All characters that ever flow through the program
either come from command-line strings or from `buffer[0] as char`
(a byte pushed as a latin-1 char), so every character corresponds to one
value below 256 and the correspondence is bijective; byte sequences
(request bytes, response body bytes) are likewise `List Nat`.
-/

namespace HttpClient

/-- Character values of a string literal. -/
def litBytes (s : String) : List Nat := s.data.map Char.toNat

/-- The two-byte line ending CR LF. -/
def crlf : List Nat := [13, 10]

/-- The four-byte header terminator CR LF CR LF. -/
def term4 : List Nat := [13, 10, 13, 10]

/-- ASCII lowercasing of a character value, mirroring the effect of Rust
`str::to_lowercase` on the characters that can reach the comparison with
the ASCII pattern `content-length:` (only ASCII letters lowercase into
ASCII letters; all other characters stay outside the ASCII letter range,
so modelling them as unchanged preserves the prefix test). -/
def asciiLower (b : Nat) : Nat := if 65 ≤ b ∧ b ≤ 90 then b + 32 else b

/-- Whitespace test of Rust `str::trim` (`char::is_whitespace`) restricted
to character values below 256: ASCII whitespace plus NEL (133) and
NBSP (160). -/
def wsByte (b : Nat) : Bool :=
  b == 9 || b == 10 || b == 11 || b == 12 || b == 13 || b == 32 || b == 133 || b == 160

/-- Rust `str::trim`: drop whitespace from both ends. -/
def trimBytes (l : List Nat) : List Nat :=
  ((l.dropWhile wsByte).reverse.dropWhile wsByte).reverse

/-- Value of an ASCII digit character, if it is one. -/
def digVal (b : Nat) : Option Nat :=
  if 48 ≤ b ∧ b ≤ 57 then some (b - 48) else none

/-- Accumulating decimal parse over a digit list; fails at the first
non-digit. -/
def parseDigitsAux : List Nat → Nat → Option Nat
  | [], acc => some acc
  | b :: rest, acc =>
    match digVal b with
    | some d => parseDigitsAux rest (acc * 10 + d)
    | none => none

/-- Parse a non-empty all-digit string to its value. -/
def parseDigits : List Nat → Option Nat
  | [] => none
  | l => parseDigitsAux l 0

/-- Rust `str::parse::<uN>()` for an unsigned integer type whose values
are the naturals below `bound`: an optional leading `+`, then at least one
ASCII digit, and the value must fit (overflow is a parse error). -/
def parseUnsigned (bound : Nat) (s : List Nat) : Option Nat :=
  let t := match s with
    | 43 :: r => r
    | _ => s
  match parseDigits t with
  | some v => if v < bound then some v else none
  | none => none

/-- Rust `str::split(c)`: all colon/linefeed-separated segments, keeping
empty segments and the segment after a trailing separator. -/
def splitOnByte (c : Nat) : List Nat → List (List Nat)
  | [] => [[]]
  | b :: rest =>
    if b = c then [] :: splitOnByte c rest
    else
      match splitOnByte c rest with
      | [] => [[b]]
      | l :: ls => (b :: l) :: ls

/-- Strip one trailing CR, as Rust `str::lines` does on each line. -/
def stripCR (l : List Nat) : List Nat :=
  if l.getLast? = some 13 then l.dropLast else l

/-- Rust `str::lines`: split on LF, drop the segment after a final LF
(equivalently the trailing empty segment), and strip one trailing CR from
each line. -/
def rustLines (s : List Nat) : List (List Nat) :=
  let parts := splitOnByte 10 s
  let parts2 := if parts.getLast? = some [] then parts.dropLast else parts
  parts2.map stripCR

/-! ## parse_url (src/main.rs lines 125-166) -/

inductive UrlError where
  | invalidScheme
  | invalidPort
deriving DecidableEq

/-- The part of `parse_url` after the scheme check, applied to the
remainder `r` of the URL: drop the fragment (everything from the first
`#`), split host[:port] from the path at the first `/` (path defaulting
to `/`), and split host from port at the first `:` (the port string must
parse as a `u16`, and defaults per scheme — the default consults the
whole original `url`, exactly as the Rust code re-tests
`url.starts_with("https://")`). -/
def parse_url_tail (url r : List Nat) : Except UrlError (List Nat × List Nat × List Nat) :=
  let rf := r.takeWhile (fun b => b != 35)
  let hostPort := rf.takeWhile (fun b => b != 47)
  let path0 := rf.dropWhile (fun b => b != 47)
  let path_query := if path0 = [] then [47] else path0
  let hostPart := hostPort.takeWhile (fun b => b != 58)
  match hostPort.dropWhile (fun b => b != 58) with
  | [] =>
    let port := if (litBytes ("https://")).isPrefixOf url then litBytes ("443")
                else litBytes ("80")
    .ok (hostPart, port, path_query)
  | _ :: portStr =>
    match parseUnsigned 65536 portStr with
    | some _ => .ok (hostPart, portStr, path_query)
    | none => .error .invalidPort

/-- `parse_url`: require the literal scheme prefix `http://` or
`https://` (anything else is `InvalidScheme`), strip it, and process the
remainder.  The port is returned as the very string found in the URL,
exactly as the Rust function keeps it. -/
def parse_url (url : List Nat) : Except UrlError (List Nat × List Nat × List Nat) :=
  if (litBytes ("http://")).isPrefixOf url then parse_url_tail url (url.drop 7)
  else if (litBytes ("https://")).isPrefixOf url then parse_url_tail url (url.drop 8)
  else .error .invalidScheme

/-! ## Request construction (src/main.rs lines 203-234) -/

/-- The Host header value (lines 206-211): the bare host when the port
string is exactly `80` or `443`, otherwise `host:port`. -/
def hostHeaderValue (host port : List Nat) : List Nat :=
  if port = litBytes ("80") ∨ port = litBytes ("443") then host
  else host ++ [58] ++ port

/-- Decimal rendering of a natural number, as Rust `format!` renders a
`usize`. -/
def natToDec (n : Nat) : List Nat := (Nat.toDigits 10 n).map Char.toNat

/-- The request byte sequence built by `send_http_request` (lines
203-234): request line, Host header, fixed User-Agent and Accept headers,
each custom header followed by CRLF, a Content-Length header when the body
is non-empty, a blank line, then the body when non-empty. -/
def buildRequest (method path_query host port data : List Nat)
    (headers : List (List Nat)) : List Nat :=
  let request := method ++ [32] ++ path_query ++ litBytes (" HTTP/1.1\r\n")
  let request := request ++ litBytes ("Host: ") ++ hostHeaderValue host port ++ crlf
  let request := request ++ litBytes ("User-Agent: curl/1.0\r\n")
  let request := request ++ litBytes ("Accept: */*\r\n")
  let request := headers.foldl (fun r hd => r ++ hd ++ crlf) request
  let request := if data = [] then request
                 else request ++ litBytes ("Content-Length: ") ++ natToDec data.length ++ crlf
  let request := request ++ crlf
  if data = [] then request else request ++ data

/-! ## Response header reading (src/main.rs lines 244-259) -/

/-- The header-reading loop: take one character at a time from the stream,
appending it to the accumulated header, until the header ends with
CR LF CR LF or the stream is exhausted; returns the collected header and
the unconsumed remainder of the stream. -/
def readHeaders : List Nat → List Nat → List Nat × List Nat
  | [], acc => (acc, [])
  | b :: rest, acc =>
    let acc2 := acc ++ [b]
    if term4.isSuffixOf acc2 then (acc2, rest) else readHeaders rest acc2

/-! ## Content-Length extraction (src/main.rs lines 311-322) -/

/-- Whether a header line, lowercased, starts with `content-length:`. -/
def isCLLine (line : List Nat) : Bool :=
  (litBytes ("content-length:")).isPrefixOf (line.map asciiLower)

/-- The candidate value of a header line: the segment between the first
and second colon (`split(':').nth(1)`), trimmed and parsed as a `usize`
(64-bit). -/
def clValue (line : List Nat) : Option Nat :=
  match (splitOnByte 58 line).get? 1 with
  | some v => parseUnsigned (2 ^ 64) (trimBytes v)
  | none => none

/-- The scanning loop of `parse_content_length`: walk the lines in order;
at each line that starts (case-insensitively) with `content-length:`,
return its parsed value if parsing succeeds, and otherwise keep
scanning. -/
def clScan : List (List Nat) → Option Nat
  | [] => none
  | line :: rest =>
    if isCLLine line then
      match clValue line with
      | some n => some n
      | none => clScan rest
    else clScan rest

/-- `parse_content_length` applied to the collected header text. -/
def parse_content_length (h : List Nat) : Option Nat := clScan (rustLines h)

/-! ## Body reading (src/main.rs lines 266-285) -/

/-- The declared-length body loop (lines 268-278): the buffer is resized
to the declared length `L` (zero-filled) and bytes are read into it until
`L` bytes have arrived or the stream ends.  The buffer is never truncated,
so on a short read the unread tail keeps its zero fill.  `acc` is the
portion already read. -/
def readBodyLoop (L : Nat) : List Nat → List Nat → List Nat
  | [], acc => if acc.length < L then acc ++ List.replicate (L - acc.length) 0 else acc
  | b :: s', acc =>
    if acc.length < L then readBodyLoop L s' (acc ++ [b]) else acc

/-- The whole response-reading phase (lines 244-285): collect the header,
extract the declared length, then either run the declared-length loop or
read the whole remaining stream (`read_to_end`).  Returns
(header characters, body bytes). -/
def responseReader (s : List Nat) : List Nat × List Nat :=
  let p := readHeaders s []
  match parse_content_length p.1 with
  | some L => (p.1, readBodyLoop L p.2 [])
  | none => (p.1, p.2)

/-! ## Output formatting (src/main.rs lines 287-305) -/

/-- First index at which the header terminator occurs, mirroring
`str::find("\r\n\r\n")`. -/
def findTerm4 : List Nat → Option Nat
  | [] => none
  | b :: rest =>
    if term4.isPrefixOf (b :: rest) then some 0
    else (findTerm4 rest).map (· + 1)

/-- Output selection (lines 293-305): the whole response text when headers
were requested; otherwise everything after the first CR LF CR LF, or the
whole text when no terminator occurs. -/
def formatOutput (include_headers : Bool) (resp : List Nat) : List Nat :=
  if include_headers then resp
  else
    match findTerm4 resp with
    | some pos => resp.drop (pos + 4)
    | none => resp

/-! ## Command-line parsing and main control flow (src/main.rs lines 7-123) -/

structure ArgState where
  show_help : Bool
  headers : List (List Nat)
  method : List Nat
  data : List Nat
  include_headers : Bool
  url : List Nat
  method_specified : Bool
deriving DecidableEq

def initArgState : ArgState :=
  { show_help := false, headers := [], method := litBytes ("GET"), data := [],
    include_headers := false, url := [], method_specified := false }

/-- The argument loop (lines 19-71): each recognised flag updates the
state (value-taking flags consume the next argument and fail without one),
an unrecognised `-`-prefixed argument is an error, and any other argument
becomes the URL (overwriting a previous one). -/
def parseLoop : List (List Nat) → ArgState → Except Unit ArgState
  | [], st => .ok st
  | a :: rest, st =>
    if a = litBytes ("-h") then parseLoop rest { st with show_help := true }
    else if a = litBytes ("-H") then
      match rest with
      | [] => .error ()
      | v :: rest2 => parseLoop rest2 { st with headers := st.headers ++ [v] }
    else if a = litBytes ("-X") then
      match rest with
      | [] => .error ()
      | v :: rest2 => parseLoop rest2 { st with method := v, method_specified := true }
    else if a = litBytes ("-d") then
      match rest with
      | [] => .error ()
      | v :: rest2 => parseLoop rest2 { st with data := v }
    else if a = litBytes ("-i") then parseLoop rest { st with include_headers := true }
    else if a.head? = some 45 then .error ()
    else parseLoop rest { st with url := a }

/-- Method defaulting (lines 73-76): when data was supplied and no method
was explicitly specified, the method becomes POST. -/
def applyDefault (st : ArgState) : ArgState :=
  if st.data ≠ [] ∧ st.method_specified = false then { st with method := litBytes ("POST") }
  else st

/-- The control flow of `main` after the argument loop (lines 73-123),
with name resolution and the request/response exchange abstracted as
oracles: help short-circuits with exit 0; a missing URL, a URL parse
failure, a resolution failure or empty address list, or a transmission
failure each yield exit code −1. -/
def runMain (args : List (List Nat))
    (resolve : List Nat → Except (List Nat) (List (List Nat)))
    (send : Except (List Nat) Unit) : Except Int Unit :=
  match parseLoop args initArgState with
  | .error _ => .error (-1)
  | .ok st0 =>
    let st := applyDefault st0
    if st.show_help then .ok ()
    else if st.url = [] then .error (-1)
    else
      match parse_url st.url with
      | .error _ => .error (-1)
      | .ok v =>
        match resolve v.1 with
        | .error _ => .error (-1)
        | .ok ips =>
          if ips = [] then .error (-1)
          else
            match send with
            | .ok _ => .ok ()
            | .error _ => .error (-1)

/-! ## Spec-side definition for claim C4 -/

/-- Modelled from the claim wording for comparison with the code: the
declared body length is determined solely by the first line beginning
case-insensitively with `content-length:`, taking its value after the
colon with whitespace trimmed (no fallback to later lines). -/
def specDeclaredLength (h : List Nat) : Option Nat :=
  match (rustLines h).find? isCLLine with
  | some line =>
    match line.dropWhile (fun b => b != 58) with
    | _ :: v => parseUnsigned (2 ^ 64) (trimBytes v)
    | [] => none
  | none => none

/-! ## General helper lemmas -/

theorem foldl_headers (hs : List (List Nat)) (r : List Nat) :
    hs.foldl (fun r hd => r ++ hd ++ crlf) r = r ++ (hs.map (fun hd => hd ++ crlf)).flatten := by
  induction hs generalizing r with
  | nil => simp
  | cons h t ih => rw [List.foldl_cons, ih]; simp [List.append_assoc]

theorem clScan_eq_findSome (ls : List (List Nat)) :
    clScan ls = ls.findSome? (fun line => if isCLLine line then clValue line else none) := by
  induction ls with
  | nil => rfl
  | cons line rest ih =>
    by_cases hcl : isCLLine line = true
    · cases hv : clValue line with
      | none => simp [clScan, List.findSome?, hcl, hv, ih]
      | some n => simp [clScan, List.findSome?, hcl, hv]
    · simp [clScan, List.findSome?, Bool.eq_false_iff.mpr hcl, ih]

/-! ## Claim C1 (code bug: short reads leave the zero fill in place) -/

/-- Claim C1 evidence: on a stream whose headers declare Content-Length 10
but that delivers only the 4 body bytes `abcd` before end-of-stream, the
code produces a body of length 10 — the 4 received bytes followed by the
six zero bytes of the untruncated buffer — not a body of length 4 as the
specification requires. -/
theorem claim_C1 :
    (responseReader (litBytes ("HTTP/1.1 200 OK\r\nContent-Length: 10\r\n\r\nabcd"))).2
      = litBytes ("abcd") ++ List.replicate 6 0 ∧
    ((responseReader (litBytes ("HTTP/1.1 200 OK\r\nContent-Length: 10\r\n\r\nabcd"))).2).length
      = 10 := by
  constructor <;> decide

/-! ## Claim C3 (exact transmitted byte sequence) -/

/-- Claim C3: the transmitted byte sequence is exactly the request line
with the method verbatim, the Host header, the User-Agent header,
`Accept: */*`, each caller-supplied header line verbatim in order followed
by CRLF, a Content-Length header with the exact body byte length iff the
body is non-empty, a bare CRLF, and then the body unchanged. -/
theorem claim_C3 (method pq host port data : List Nat) (headers : List (List Nat)) :
    buildRequest method pq host port data headers =
      method ++ [32] ++ pq ++ litBytes (" HTTP/1.1\r\n") ++
      litBytes ("Host: ") ++ hostHeaderValue host port ++ crlf ++
      litBytes ("User-Agent: curl/1.0\r\n") ++
      litBytes ("Accept: */*\r\n") ++
      (headers.map (fun hd => hd ++ crlf)).flatten ++
      (if data = [] then []
       else litBytes ("Content-Length: ") ++ natToDec data.length ++ crlf) ++
      crlf ++ data := by
  simp only [buildRequest]
  rw [foldl_headers]
  by_cases h : data = [] <;> simp [h, List.append_assoc]

/-! ## Claim C4 (corrected: invalid first content-length falls through) -/

/-- Claim C4 counterexample: with a first `content-length` line whose
value `abc` is not a number and a later duplicate carrying `7`, the
claim's reading (only the first matching line counts) yields no declared
length, but the code returns 7 from the later duplicate. -/
theorem claim_C4_cex :
    specDeclaredLength
        (litBytes ("HTTP/1.1 200 OK\r\nContent-Length: abc\r\nContent-Length: 7\r\n\r\n"))
      = none ∧
    parse_content_length
        (litBytes ("HTTP/1.1 200 OK\r\nContent-Length: abc\r\nContent-Length: 7\r\n\r\n"))
      = some 7 := by
  constructor <;> decide

/-- Claim C4 (amended): the declared body length is the value of the first
line that begins case-insensitively with `content-length:` AND whose
colon-delimited value parses as an unsigned integer; matching lines whose
value fails to parse are skipped, and only once a line yields a value are
later duplicates ignored. -/
theorem claim_C4 (h : List Nat) :
    parse_content_length h
      = (rustLines h).findSome?
          (fun line => if isCLLine line then clValue line else none) :=
  clScan_eq_findSome (rustLines h)

/-! ## Claim C7 (corrected: the comparison is on the port string) -/

/-- Claim C7 counterexample: the URL `http://example.com:080/` parses with
port string `080`, whose numeric value is 80, yet the Host header value
does not omit the port: the comparison is string equality against `80`
and `443`, not numeric equality. -/
theorem claim_C7_cex :
    parse_url (litBytes ("http://example.com:080/"))
      = .ok (litBytes ("example.com"), litBytes ("080"), litBytes ("/")) ∧
    parseUnsigned 65536 (litBytes ("080")) = some 80 ∧
    hostHeaderValue (litBytes ("example.com")) (litBytes ("080"))
      = litBytes ("example.com") ++ [58] ++ litBytes ("080") := by
  refine ⟨rfl, by decide, rfl⟩

/-- Claim C7 (amended): the Host header value omits the port segment
exactly when the port string is exactly `80` or exactly `443` (regardless
of scheme), and reads `host:port` for every other port string — numeric
equality does not suffice (e.g. the string `080`). -/
theorem claim_C7 (host port : List Nat) :
    (hostHeaderValue host port = host ↔
      (port = litBytes ("80") ∨ port = litBytes ("443"))) ∧
    (¬(port = litBytes ("80") ∨ port = litBytes ("443")) →
      hostHeaderValue host port = host ++ [58] ++ port) := by
  constructor
  · constructor
    · intro he
      by_contra hn
      rw [hostHeaderValue, if_neg hn] at he
      have hlen := congrArg List.length he
      simp [List.length_append] at hlen
    · intro hp
      rw [hostHeaderValue, if_pos hp]
  · intro hn
    rw [hostHeaderValue, if_neg hn]

/-- Concrete instance of the amended claim C7 at host `h`, port `8080`. -/
theorem claim_C7_witness :
    hostHeaderValue (litBytes ("h")) (litBytes ("8080"))
      = litBytes ("h") ++ [58] ++ litBytes ("8080") :=
  (claim_C7 (litBytes ("h")) (litBytes ("8080"))).2 (by decide)

/-! ## Header-reading loop lemmas -/

theorem readHeaders_append (s : List Nat) :
    ∀ acc, (readHeaders s acc).1 ++ (readHeaders s acc).2 = acc ++ s := by
  induction s with
  | nil => intro acc; simp [readHeaders]
  | cons b rest ih =>
    intro acc
    by_cases h : term4.isSuffixOf (acc ++ [b]) = true
    · simp [readHeaders, h]
    · simp only [readHeaders, h, Bool.false_eq_true, if_false]
      rw [ih (acc ++ [b])]
      simp

theorem readHeaders_min (s : List Nat) :
    ∀ acc, (∀ p, p <+: acc → ¬ term4 <:+ p) →
    ∀ a b2, acc ++ s = a ++ term4 ++ b2 →
    (readHeaders s acc).1.length ≤ a.length + 4 := by
  induction s with
  | nil =>
    intro acc hinv a b2 heq
    exfalso
    refine hinv (a ++ term4) ?_ (List.suffix_append a term4)
    rw [List.append_nil] at heq
    rw [heq]
    exact (a ++ term4).prefix_append b2
  | cons x rest ih =>
    intro acc hinv a b2 heq
    have hsplit : (acc ++ [x]) ++ rest = a ++ term4 ++ b2 := by
      simpa using heq
    by_cases hf : term4.isSuffixOf (acc ++ [x]) = true
    · simp only [readHeaders, hf, if_true]
      by_contra hlt
      push_neg at hlt
      have hp1 : a ++ term4 <+: (acc ++ [x]) ++ rest := by
        rw [hsplit]
        exact (a ++ term4).prefix_append b2
      have hlen : (a ++ term4).length ≤ (acc ++ [x]).length := by
        simp only [List.length_append, term4] at hlt ⊢
        simp only [List.length_cons, List.length_nil, List.length_singleton] at hlt ⊢
        omega
      have hp2 : a ++ term4 <+: acc ++ [x] :=
        List.prefix_of_prefix_length_le hp1 ((acc ++ [x]).prefix_append rest) hlen
      have hlen2 : (a ++ term4).length ≤ acc.length := by
        simp only [List.length_append, term4, List.length_cons, List.length_nil,
          List.length_singleton] at hlt ⊢
        omega
      have hp3 : a ++ term4 <+: acc :=
        List.prefix_of_prefix_length_le hp2 (acc.prefix_append [x]) hlen2
      exact hinv (a ++ term4) hp3 (List.suffix_append a term4)
    · simp only [readHeaders, hf, if_false]
      refine ih (acc ++ [x]) ?_ a b2 hsplit
      intro p hp hsuf
      by_cases hpe : p = acc ++ [x]
      · rw [List.isSuffixOf_iff_suffix] at hf
        exact hf (hpe ▸ hsuf)
      · have hplen : p.length < (acc ++ [x]).length :=
          lt_of_le_of_ne hp.length_le (fun hl => hpe (hp.eq_of_length hl))
        have hple : p.length ≤ acc.length := by
          simp only [List.length_append, List.length_singleton] at hplen
          omega
        exact hinv p (List.prefix_of_prefix_length_le hp (acc.prefix_append [x]) hple) hsuf

theorem readHeaders_ends (s : List Nat) :
    ∀ acc, (∀ p, p <+: acc → ¬ term4 <:+ p) →
    ∀ a b2, acc ++ s = a ++ term4 ++ b2 →
    term4 <:+ (readHeaders s acc).1 := by
  induction s with
  | nil =>
    intro acc hinv a b2 heq
    exfalso
    refine hinv (a ++ term4) ?_ (List.suffix_append a term4)
    rw [List.append_nil] at heq
    rw [heq]
    exact (a ++ term4).prefix_append b2
  | cons x rest ih =>
    intro acc hinv a b2 heq
    have hsplit : (acc ++ [x]) ++ rest = a ++ term4 ++ b2 := by
      simpa using heq
    by_cases hf : term4.isSuffixOf (acc ++ [x]) = true
    · simp only [readHeaders, hf, if_true]
      exact List.isSuffixOf_iff_suffix.mp hf
    · simp only [readHeaders, hf, if_false]
      refine ih (acc ++ [x]) ?_ a b2 hsplit
      intro p hp hsuf
      by_cases hpe : p = acc ++ [x]
      · rw [List.isSuffixOf_iff_suffix] at hf
        exact hf (hpe ▸ hsuf)
      · have hplen : p.length < (acc ++ [x]).length :=
          lt_of_le_of_ne hp.length_le (fun hl => hpe (hp.eq_of_length hl))
        have hple : p.length ≤ acc.length := by
          simp only [List.length_append, List.length_singleton] at hplen
          omega
        exact hinv p (List.prefix_of_prefix_length_le hp (acc.prefix_append [x]) hple) hsuf

theorem nil_inv : ∀ p : List Nat, p <+: ([] : List Nat) → ¬ term4 <:+ p := by
  intro p hp hs
  rw [List.prefix_nil.mp hp] at hs
  have := List.suffix_nil.mp hs
  simp [term4] at this

/-! ## Claim C2 (header collection stops at the first terminator) -/

/-- Claim C2: on any stream containing CR LF CR LF, the collected header
followed by the unread remainder reassembles the stream, the header ends
with the terminator (so the terminator belongs to the header, never the
body), the header stops at the first occurrence of the terminator (its
length is at most four more than any occurrence position), and body
reading begins exactly at the byte following the terminator. -/
theorem claim_C2 (s a b2 : List Nat) (hocc : s = a ++ term4 ++ b2) :
    (readHeaders s []).1 ++ (readHeaders s []).2 = s ∧
    term4 <:+ (readHeaders s []).1 ∧
    (readHeaders s []).1.length ≤ a.length + 4 ∧
    (readHeaders s []).2 = s.drop (readHeaders s []).1.length := by
  have hc : (readHeaders s []).1 ++ (readHeaders s []).2 = s := by
    simpa using readHeaders_append s []
  refine ⟨hc, readHeaders_ends s [] nil_inv a b2 (by simpa using hocc),
    readHeaders_min s [] nil_inv a b2 (by simpa using hocc), ?_⟩
  have hd : (readHeaders s []).2
      = List.drop (readHeaders s []).1.length ((readHeaders s []).1 ++ (readHeaders s []).2) :=
    (List.drop_left _ _).symm
  rw [hc] at hd
  exact hd

/-- Concrete instance of claim C2 on the stream `ab` CRLFCRLF `cd`. -/
theorem claim_C2_witness :
    (readHeaders (litBytes ("ab\r\n\r\ncd")) []).1 ++
        (readHeaders (litBytes ("ab\r\n\r\ncd")) []).2 = litBytes ("ab\r\n\r\ncd") ∧
    term4 <:+ (readHeaders (litBytes ("ab\r\n\r\ncd")) []).1 ∧
    (readHeaders (litBytes ("ab\r\n\r\ncd")) []).1.length ≤ (litBytes ("ab")).length + 4 ∧
    (readHeaders (litBytes ("ab\r\n\r\ncd")) []).2
      = (litBytes ("ab\r\n\r\ncd")).drop (readHeaders (litBytes ("ab\r\n\r\ncd")) []).1.length :=
  claim_C2 (litBytes ("ab\r\n\r\ncd")) (litBytes ("ab")) (litBytes ("cd")) (by decide)

/-! ## Claim C10 (unparseable content-length falls back to close-delimited) -/

/-- Claim C10: a content-length line whose value does not parse
contributes no declared length (the scan continues past it), and when the
collected header yields no declared length the reader takes the
close-delimited path: the body is exactly the remainder of the stream
after the header, with header and body reassembling the stream. -/
theorem claim_C10 :
    (∀ line rest, isCLLine line = true → clValue line = none →
      clScan (line :: rest) = clScan rest) ∧
    (∀ s, parse_content_length (readHeaders s []).1 = none →
      responseReader s = ((readHeaders s []).1, (readHeaders s []).2) ∧
      (responseReader s).1 ++ (responseReader s).2 = s) := by
  constructor
  · intro line rest h1 h2
    simp [clScan, h1, h2]
  · intro s hnone
    have hr : responseReader s = ((readHeaders s []).1, (readHeaders s []).2) := by
      simp [responseReader, hnone]
    exact ⟨hr, by rw [hr]; exact readHeaders_append s []⟩

/-- Concrete instance of claim C10: an unparseable `Content-Length: abc`
header makes the reader consume the whole remaining stream as the body. -/
theorem claim_C10_witness :
    clScan (litBytes ("Content-Length: abc") :: []) = clScan [] ∧
    responseReader (litBytes ("HTTP/1.1 200 OK\r\nContent-Length: abc\r\n\r\nxyz"))
      = ((readHeaders (litBytes ("HTTP/1.1 200 OK\r\nContent-Length: abc\r\n\r\nxyz")) []).1,
         (readHeaders (litBytes ("HTTP/1.1 200 OK\r\nContent-Length: abc\r\n\r\nxyz")) []).2) :=
  ⟨claim_C10.1 (litBytes ("Content-Length: abc")) [] (by decide) (by decide),
   (claim_C10.2 (litBytes ("HTTP/1.1 200 OK\r\nContent-Length: abc\r\n\r\nxyz")) (by decide)).1⟩

/-! ## Substring search lemmas for the output formatter -/

theorem findTerm4_none (s : List Nat) (h : findTerm4 s = none) :
    ∀ a b2, s ≠ a ++ term4 ++ b2 := by
  induction s with
  | nil =>
    intro a b2 he
    have := congrArg List.length he
    simp [term4] at this
    omega
  | cons x rest ih =>
    intro a b2 he
    simp only [findTerm4] at h
    by_cases hp : term4.isPrefixOf (x :: rest) = true
    · rw [if_pos hp] at h
      exact Option.noConfusion h
    · rw [if_neg hp] at h
      have hrest : findTerm4 rest = none := by
        cases hr : findTerm4 rest with
        | none => rfl
        | some j => rw [hr] at h; exact Option.noConfusion h
      cases a with
      | nil =>
        refine hp ?_
        rw [List.isPrefixOf_iff_prefix]
        exact ⟨b2, by simpa using he.symm⟩
      | cons y a' =>
        have he' : rest = a' ++ term4 ++ b2 := by
          have : x :: rest = y :: (a' ++ term4 ++ b2) := by simpa using he
          exact (List.cons.injEq _ _ _ _ ▸ this).2
        exact ih hrest a' b2 he'

theorem findTerm4_some (s : List Nat) :
    ∀ i, findTerm4 s = some i →
    ∃ a b2, s = a ++ term4 ++ b2 ∧ a.length = i ∧
      ∀ a' b2', s = a' ++ term4 ++ b2' → i ≤ a'.length := by
  induction s with
  | nil => intro i h; exact Option.noConfusion h
  | cons x rest ih =>
    intro i h
    simp only [findTerm4] at h
    by_cases hp : term4.isPrefixOf (x :: rest) = true
    · rw [if_pos hp] at h
      obtain ⟨t, ht⟩ := List.isPrefixOf_iff_prefix.mp hp
      refine ⟨[], t, by simpa using ht.symm, by simpa using Option.some.inj h, ?_⟩
      · intro a' b2' _
        have : 0 = i := Option.some.inj h
        omega
    · rw [if_neg hp] at h
      cases hr : findTerm4 rest with
      | none => rw [hr] at h; exact Option.noConfusion h
      | some j =>
        rw [hr] at h
        have hij : i = j + 1 := by
          have := Option.some.injEq (j + 1) i ▸ h
          omega
        obtain ⟨a, b2, heq, hlen, hmin⟩ := ih j hr
        refine ⟨x :: a, b2, by simp [heq], by simp [hlen, hij], ?_⟩
        intro a' b2' he
        cases a' with
        | nil =>
          exfalso
          refine hp ?_
          rw [List.isPrefixOf_iff_prefix]
          exact ⟨b2', by simpa using he.symm⟩
        | cons y a'' =>
          have he' : rest = a'' ++ term4 ++ b2' := by
            have : x :: rest = y :: (a'' ++ term4 ++ b2') := by simpa using he
            exact (List.cons.injEq _ _ _ _ ▸ this).2
          have := hmin a'' b2' he'
          simp only [List.length_cons]
          omega

/-! ## Claim C5 (output selection) -/

/-- Claim C5: when headers were requested the emitted text is the whole
response verbatim; otherwise it is exactly what follows the first
occurrence of CR LF CR LF, and the whole text unmodified when no such
occurrence exists.  (The text here is the lossily-decoded response, on
which the code runs its `find`; invalid byte sequences were already
replaced during the never-failing decode.) -/
theorem claim_C5 :
    (∀ resp, formatOutput true resp = resp) ∧
    (∀ resp a b2, resp = a ++ term4 ++ b2 →
      (∀ a' b2', resp = a' ++ term4 ++ b2' → a.length ≤ a'.length) →
      formatOutput false resp = b2) ∧
    (∀ resp, (∀ a b2, resp ≠ a ++ term4 ++ b2) → formatOutput false resp = resp) := by
  refine ⟨fun resp => rfl, ?_, ?_⟩
  · intro resp a b2 heq hmin
    cases hf : findTerm4 resp with
    | none => exact absurd heq (findTerm4_none resp hf a b2)
    | some i =>
      obtain ⟨a0, b0, heq0, hlen0, hmin0⟩ := findTerm4_some resp i hf
      have h1 : i ≤ a.length := hmin0 a b2 heq
      have h2 : a.length ≤ a0.length := hmin a0 b0 heq0
      have hi : i = a.length := le_antisymm h1 (by omega)
      simp only [formatOutput, Bool.false_eq_true, if_false, hf]
      rw [heq, hi]
      have : a.length + 4 = (a ++ term4).length := by simp [term4]
      rw [this, List.drop_left]
  · intro resp hno
    cases hf : findTerm4 resp with
    | none => simp [formatOutput, hf]
    | some i =>
      obtain ⟨a, b2, heq, _, _⟩ := findTerm4_some resp i hf
      exact absurd heq (hno a b2)

/-- Concrete instances of claim C5: headers included verbatim, body-only
output after the first terminator, and an untouched terminator-free
text. -/
theorem claim_C5_witness :
    formatOutput true (litBytes ("x")) = litBytes ("x") ∧
    formatOutput false (litBytes ("\r\n\r\nhello")) = litBytes ("hello") ∧
    formatOutput false (litBytes ("abc")) = litBytes ("abc") :=
  ⟨claim_C5.1 (litBytes ("x")),
   claim_C5.2.1 (litBytes ("\r\n\r\nhello")) [] (litBytes ("hello")) (by decide)
     (fun _ _ _ => Nat.zero_le _),
   claim_C5.2.2 (litBytes ("abc"))
     (fun a b2 he => by
       have := congrArg List.length he
       simp [term4, litBytes] at this
       omega)⟩

/-! ## Argument-loop lemmas -/

theorem parseLoop_one (a : List Nat) (st : ArgState) :
    parseLoop [a] st =
      (if a = litBytes ("-h") then parseLoop [] { st with show_help := true }
       else if a = litBytes ("-H") then .error ()
       else if a = litBytes ("-X") then .error ()
       else if a = litBytes ("-d") then .error ()
       else if a = litBytes ("-i") then parseLoop [] { st with include_headers := true }
       else if a.head? = some 45 then .error ()
       else parseLoop [] { st with url := a }) := rfl

theorem parseLoop_two (a v : List Nat) (rest2 : List (List Nat)) (st : ArgState) :
    parseLoop (a :: v :: rest2) st =
      (if a = litBytes ("-h") then parseLoop (v :: rest2) { st with show_help := true }
       else if a = litBytes ("-H") then parseLoop rest2 { st with headers := st.headers ++ [v] }
       else if a = litBytes ("-X") then
         parseLoop rest2 { st with method := v, method_specified := true }
       else if a = litBytes ("-d") then parseLoop rest2 { st with data := v }
       else if a = litBytes ("-i") then parseLoop (v :: rest2) { st with include_headers := true }
       else if a.head? = some 45 then .error ()
       else parseLoop (v :: rest2) { st with url := a }) := rfl

theorem parseLoop_noX_aux :
    ∀ (n : Nat) (args : List (List Nat)), args.length ≤ n →
    ∀ st st', litBytes ("-X") ∉ args → parseLoop args st = .ok st' →
    st'.method = st.method ∧ st'.method_specified = st.method_specified := by
  intro n
  induction n with
  | zero =>
    intro args hlen st st' _ hp
    have hargs : args = [] := List.length_eq_zero.mp (Nat.le_zero.mp hlen)
    subst hargs
    injection (show (Except.ok st : Except Unit ArgState) = .ok st' from hp) with h
    subst h
    exact ⟨rfl, rfl⟩
  | succ n ihn =>
    intro args hlen st st' hmem hp
    cases args with
    | nil =>
      injection (show (Except.ok st : Except Unit ArgState) = .ok st' from hp) with h
      subst h
      exact ⟨rfl, rfl⟩
    | cons a rest =>
      have haX : a ≠ litBytes ("-X") := fun he => hmem (List.mem_cons.mpr (Or.inl he.symm))
      have hmr : litBytes ("-X") ∉ rest := fun hm => hmem (List.mem_cons.mpr (Or.inr hm))
      have hlr : rest.length ≤ n := by
        simp only [List.length_cons] at hlen
        omega
      cases rest with
      | nil =>
        rw [parseLoop_one] at hp
        by_cases h1 : a = litBytes ("-h")
        · rw [if_pos h1] at hp
          exact ihn [] (Nat.zero_le n) { st with show_help := true } st' (by simp) hp
        · rw [if_neg h1] at hp
          by_cases h2 : a = litBytes ("-H")
          · rw [if_pos h2] at hp
            exact Except.noConfusion hp
          · rw [if_neg h2, if_neg haX] at hp
            by_cases h4 : a = litBytes ("-d")
            · rw [if_pos h4] at hp
              exact Except.noConfusion hp
            · rw [if_neg h4] at hp
              by_cases h5 : a = litBytes ("-i")
              · rw [if_pos h5] at hp
                exact ihn [] (Nat.zero_le n) { st with include_headers := true } st' (by simp) hp
              · rw [if_neg h5] at hp
                by_cases h6 : a.head? = some 45
                · rw [if_pos h6] at hp
                  exact Except.noConfusion hp
                · rw [if_neg h6] at hp
                  exact ihn [] (Nat.zero_le n) { st with url := a } st' (by simp) hp
      | cons v rest2 =>
        have hm2 : litBytes ("-X") ∉ rest2 := fun hm => hmr (List.mem_cons.mpr (Or.inr hm))
        have hl2 : rest2.length ≤ n := by
          simp only [List.length_cons] at hlr
          omega
        rw [parseLoop_two] at hp
        by_cases h1 : a = litBytes ("-h")
        · rw [if_pos h1] at hp
          exact ihn (v :: rest2) hlr { st with show_help := true } st' hmr hp
        · rw [if_neg h1] at hp
          by_cases h2 : a = litBytes ("-H")
          · rw [if_pos h2] at hp
            exact ihn rest2 hl2 { st with headers := st.headers ++ [v] } st' hm2 hp
          · rw [if_neg h2, if_neg haX] at hp
            by_cases h4 : a = litBytes ("-d")
            · rw [if_pos h4] at hp
              exact ihn rest2 hl2 { st with data := v } st' hm2 hp
            · rw [if_neg h4] at hp
              by_cases h5 : a = litBytes ("-i")
              · rw [if_pos h5] at hp
                exact ihn (v :: rest2) hlr { st with include_headers := true } st' hmr hp
              · rw [if_neg h5] at hp
                by_cases h6 : a.head? = some 45
                · rw [if_pos h6] at hp
                  exact Except.noConfusion hp
                · rw [if_neg h6] at hp
                  exact ihn (v :: rest2) hlr { st with url := a } st' hmr hp

theorem parseLoop_noX (args : List (List Nat)) (st st' : ArgState)
    (hmem : litBytes ("-X") ∉ args) (hp : parseLoop args st = .ok st') :
    st'.method = st.method ∧ st'.method_specified = st.method_specified :=
  parseLoop_noX_aux args.length args le_rfl st st' hmem hp

/-! ## Claim C6 (method defaulting) -/

/-- Claim C6: an invocation carrying data but no `-X` flag ends with
method `POST`; an invocation whose `-X` flag carries `m` (with no later
`-X`) ends with method `m` unchanged, data or not; and an invocation with
neither data nor `-X` keeps the default `GET`. -/
theorem claim_C6 :
    (∀ args st, litBytes ("-X") ∉ args → parseLoop args initArgState = .ok st →
      st.data ≠ [] → (applyDefault st).method = litBytes ("POST")) ∧
    (∀ st1 m post st, litBytes ("-X") ∉ post →
      parseLoop (litBytes ("-X") :: m :: post) st1 = .ok st →
      (applyDefault st).method = m) ∧
    (∀ args st, litBytes ("-X") ∉ args → parseLoop args initArgState = .ok st →
      st.data = [] → (applyDefault st).method = litBytes ("GET")) := by
  refine ⟨?_, ?_, ?_⟩
  · intro args st hmem hp hdata
    have hspec := (parseLoop_noX args initArgState st hmem hp).2
    simp [applyDefault, hdata, hspec, initArgState]
  · intro st1 m post st hmem hp
    have hstep : parseLoop (litBytes ("-X") :: m :: post) st1
        = parseLoop post { st1 with method := m, method_specified := true } := by
      rw [parseLoop_two]
      rw [if_neg (by decide), if_neg (by decide), if_pos rfl]
    rw [hstep] at hp
    have hx := parseLoop_noX post _ st hmem hp
    have hdef : (applyDefault st).method = st.method := by
      simp [applyDefault, hx.2]
    rw [hdef, hx.1]
  · intro args st hmem hp hdata
    have hx := parseLoop_noX args initArgState st hmem hp
    have hdef : (applyDefault st).method = st.method := by
      simp [applyDefault, hdata]
    rw [hdef, hx.1]
    rfl

/-- The state the argument loop reaches on `-d x http://h/`. -/
def stDataNoX : ArgState :=
  { initArgState with data := litBytes ("x"), url := litBytes ("http://h/") }

/-- The state the argument loop reaches on `-X PUT -d x http://h/`. -/
def stExplicitPut : ArgState :=
  { initArgState with method := litBytes ("PUT"), method_specified := true,
                      data := litBytes ("x"), url := litBytes ("http://h/") }

/-- The state the argument loop reaches on a bare `http://h/`. -/
def stBareUrl : ArgState :=
  { initArgState with url := litBytes ("http://h/") }

/-- Concrete instances of claim C6: `-d x URL` gives POST, `-X PUT -d x
URL` stays PUT despite the data, and a bare URL gives GET. -/
theorem claim_C6_witness :
    (applyDefault stDataNoX).method = litBytes ("POST") ∧
    (applyDefault stExplicitPut).method = litBytes ("PUT") ∧
    (applyDefault stBareUrl).method = litBytes ("GET") :=
  ⟨claim_C6.1 [litBytes ("-d"), litBytes ("x"), litBytes ("http://h/")] stDataNoX
     (by decide) rfl (by decide),
   claim_C6.2.1 initArgState (litBytes ("PUT"))
     [litBytes ("-d"), litBytes ("x"), litBytes ("http://h/")] stExplicitPut (by decide) rfl,
   claim_C6.2.2 [litBytes ("http://h/")] stBareUrl (by decide) rfl rfl⟩

/-! ## takeWhile / dropWhile helpers for the URL parser -/

theorem takeWhile_all {p : Nat → Bool} : ∀ {xs : List Nat}, (∀ x ∈ xs, p x = true) →
    xs.takeWhile p = xs := by
  intro xs h
  induction xs with
  | nil => rfl
  | cons x t ih =>
    rw [List.takeWhile_cons, h x (List.mem_cons_self x t)]
    rw [ih (fun y hy => h y (List.mem_cons.mpr (Or.inr hy)))]
    simp

theorem dropWhile_all {p : Nat → Bool} : ∀ {xs : List Nat}, (∀ x ∈ xs, p x = true) →
    xs.dropWhile p = [] := by
  intro xs h
  induction xs with
  | nil => rfl
  | cons x t ih =>
    rw [List.dropWhile_cons, h x (List.mem_cons_self x t)]
    simpa using ih (fun y hy => h y (List.mem_cons.mpr (Or.inr hy)))

theorem takeWhile_append_stop {p : Nat → Bool} :
    ∀ (xs : List Nat) (b : Nat) (ys : List Nat), (∀ x ∈ xs, p x = true) → p b = false →
    (xs ++ b :: ys).takeWhile p = xs := by
  intro xs b ys hall hb
  induction xs with
  | nil => simp [List.takeWhile_cons, hb]
  | cons x t ih =>
    rw [List.cons_append, List.takeWhile_cons, hall x (List.mem_cons_self x t)]
    rw [ih (fun y hy => hall y (List.mem_cons.mpr (Or.inr hy)))]
    simp

theorem dropWhile_append_stop {p : Nat → Bool} :
    ∀ (xs : List Nat) (b : Nat) (ys : List Nat), (∀ x ∈ xs, p x = true) → p b = false →
    (xs ++ b :: ys).dropWhile p = b :: ys := by
  intro xs b ys hall hb
  induction xs with
  | nil => simp [List.dropWhile_cons, hb]
  | cons x t ih =>
    rw [List.cons_append, List.dropWhile_cons, hall x (List.mem_cons_self x t)]
    simpa using ih (fun y hy => hall y (List.mem_cons.mpr (Or.inr hy)))

theorem notMem_bne {c : Nat} {xs : List Nat} (h : c ∉ xs) :
    ∀ x ∈ xs, (x != c) = true := by
  intro x hx
  have : x ≠ c := fun he => h (he ▸ hx)
  simpa using this

/-! ## Scheme-prefix disambiguation -/

theorem https_not_before_http (rest : List Nat) :
    (litBytes ("https://")).isPrefixOf (litBytes ("http://") ++ rest) = false := by
  by_contra hne
  have hb : (litBytes ("https://")).isPrefixOf (litBytes ("http://") ++ rest) = true := by
    cases hv : (litBytes ("https://")).isPrefixOf (litBytes ("http://") ++ rest) with
    | true => rfl
    | false => exact absurd hv hne
  obtain ⟨t, ht⟩ := List.isPrefixOf_iff_prefix.mp hb
  have h4 : (litBytes ("https://") ++ t)[4]? = ((litBytes ("http://")) ++ rest)[4]? := by
    rw [ht]
  rw [List.getElem?_append_left (by decide), List.getElem?_append_left (by decide)] at h4
  simp [litBytes] at h4

theorem http_not_before_https (rest : List Nat) :
    (litBytes ("http://")).isPrefixOf (litBytes ("https://") ++ rest) = false := by
  by_contra hne
  have hb : (litBytes ("http://")).isPrefixOf (litBytes ("https://") ++ rest) = true := by
    cases hv : (litBytes ("http://")).isPrefixOf (litBytes ("https://") ++ rest) with
    | true => rfl
    | false => exact absurd hv hne
  obtain ⟨t, ht⟩ := List.isPrefixOf_iff_prefix.mp hb
  have h4 : (litBytes ("http://") ++ t)[4]? = ((litBytes ("https://")) ++ rest)[4]? := by
    rw [ht]
  rw [List.getElem?_append_left (by decide), List.getElem?_append_left (by decide)] at h4
  simp [litBytes] at h4

theorem isPrefixOf_self_append (l t : List Nat) : l.isPrefixOf (l ++ t) = true :=
  List.isPrefixOf_iff_prefix.mpr (l.prefix_append t)

theorem notMem_append {c : Nat} {xs ys : List Nat} (hx : c ∉ xs) (hy : c ∉ ys) :
    c ∉ xs ++ ys := by
  intro hm
  rcases List.mem_append.mp hm with h | h
  · exact hx h
  · exact hy h

theorem notMem_append_cons {c b : Nat} {xs ys : List Nat} (hx : c ∉ xs) (hcb : c ≠ b)
    (hy : c ∉ ys) : c ∉ xs ++ b :: ys := by
  intro hm
  rcases List.mem_append.mp hm with h | h
  · exact hx h
  · rcases List.mem_cons.mp h with h | h
    · exact hcb h
    · exact hy h

/-! ## parse_url computation lemmas -/

theorem parse_url_tail_colon (u host portStr path : List Nat)
    (h58 : 58 ∉ host) (h47 : 47 ∉ host) (h35 : 35 ∉ host)
    (hp47 : 47 ∉ portStr) (hp35 : 35 ∉ portStr) (hq35 : 35 ∉ path)
    (hform : path = [] ∨ path.head? = some 47) :
    parse_url_tail u (host ++ 58 :: (portStr ++ path))
      = match parseUnsigned 65536 portStr with
        | some _ => .ok (host, portStr, if path = [] then [47] else path)
        | none => .error .invalidPort := by
  have hhost : (host ++ 58 :: portStr).takeWhile (fun b => b != 58) = host :=
    takeWhile_append_stop host 58 portStr (notMem_bne h58) (by decide)
  have hafter : (host ++ 58 :: portStr).dropWhile (fun b => b != 58) = 58 :: portStr :=
    dropWhile_append_stop host 58 portStr (notMem_bne h58) (by decide)
  rcases hform with hpe | hph
  · subst hpe
    rw [List.append_nil]
    have h47r : (47 : Nat) ∉ host ++ 58 :: portStr :=
      notMem_append_cons h47 (by decide) hp47
    have h35r : (35 : Nat) ∉ host ++ 58 :: portStr :=
      notMem_append_cons h35 (by decide) hp35
    have hrf : (host ++ 58 :: portStr).takeWhile (fun b => b != 35)
        = host ++ 58 :: portStr := takeWhile_all (notMem_bne h35r)
    have hhp : (host ++ 58 :: portStr).takeWhile (fun b => b != 47)
        = host ++ 58 :: portStr := takeWhile_all (notMem_bne h47r)
    have hp0 : (host ++ 58 :: portStr).dropWhile (fun b => b != 47) = [] :=
      dropWhile_all (notMem_bne h47r)
    simp only [parse_url_tail]
    rw [hrf, hhp, hp0, hhost, hafter]
    cases hpu : parseUnsigned 65536 portStr with
    | none => simp [hpu]
    | some v => simp [hpu]
  · obtain ⟨p0, ptail, hpc⟩ : ∃ p0 ptail, path = p0 :: ptail := by
      cases path with
      | nil => exact Option.noConfusion hph
      | cons p0 ptail => exact ⟨p0, ptail, rfl⟩
    have hp0c : p0 = 47 := by
      rw [hpc] at hph
      exact Option.some.inj hph
    subst hp0c
    subst hpc
    have hre : host ++ 58 :: (portStr ++ 47 :: ptail)
        = (host ++ 58 :: portStr) ++ 47 :: ptail := by simp
    rw [hre]
    have hall47 : ∀ x ∈ host ++ 58 :: portStr, (x != 47) = true :=
      notMem_bne (notMem_append_cons h47 (by decide) hp47)
    have h35p : (35 : Nat) ∉ 47 :: ptail := by
      intro hm
      rcases List.mem_cons.mp hm with h | h
      · exact absurd h (by decide)
      · exact hq35 (List.mem_cons.mpr (Or.inr h))
    have h35r : (35 : Nat) ∉ (host ++ 58 :: portStr) ++ 47 :: ptail :=
      notMem_append (notMem_append_cons h35 (by decide) hp35) h35p
    have hrf : ((host ++ 58 :: portStr) ++ 47 :: ptail).takeWhile (fun b => b != 35)
        = (host ++ 58 :: portStr) ++ 47 :: ptail := takeWhile_all (notMem_bne h35r)
    have hhp : ((host ++ 58 :: portStr) ++ 47 :: ptail).takeWhile (fun b => b != 47)
        = host ++ 58 :: portStr := takeWhile_append_stop _ 47 ptail hall47 (by decide)
    have hdp : ((host ++ 58 :: portStr) ++ 47 :: ptail).dropWhile (fun b => b != 47)
        = 47 :: ptail := dropWhile_append_stop _ 47 ptail hall47 (by decide)
    simp only [parse_url_tail]
    rw [hrf, hhp, hdp, hhost, hafter]

theorem parse_url_tail_nocolon (u host path : List Nat)
    (h58 : 58 ∉ host) (h47 : 47 ∉ host) (h35 : 35 ∉ host) (hq35 : 35 ∉ path)
    (hform : path = [] ∨ path.head? = some 47) :
    parse_url_tail u (host ++ path)
      = .ok (host,
             (if (litBytes ("https://")).isPrefixOf u then litBytes ("443")
              else litBytes ("80")),
             if path = [] then [47] else path) := by
  have hhost : host.takeWhile (fun b => b != 58) = host := takeWhile_all (notMem_bne h58)
  have hafter : host.dropWhile (fun b => b != 58) = [] := dropWhile_all (notMem_bne h58)
  rcases hform with hpe | hph
  · subst hpe
    rw [List.append_nil]
    have hrf : host.takeWhile (fun b => b != 35) = host := takeWhile_all (notMem_bne h35)
    have hhp : host.takeWhile (fun b => b != 47) = host := takeWhile_all (notMem_bne h47)
    have hp0 : host.dropWhile (fun b => b != 47) = [] := dropWhile_all (notMem_bne h47)
    simp only [parse_url_tail]
    rw [hrf, hhp, hp0, hhost, hafter]
    simp
  · obtain ⟨p0, ptail, hpc⟩ : ∃ p0 ptail, path = p0 :: ptail := by
      cases path with
      | nil => exact Option.noConfusion hph
      | cons p0 ptail => exact ⟨p0, ptail, rfl⟩
    have hp0c : p0 = 47 := by
      rw [hpc] at hph
      exact Option.some.inj hph
    subst hp0c
    subst hpc
    have h35p : (35 : Nat) ∉ 47 :: ptail := fun hm => hq35 hm
    have h35r : (35 : Nat) ∉ host ++ 47 :: ptail := notMem_append h35 h35p
    have hrf : (host ++ 47 :: ptail).takeWhile (fun b => b != 35) = host ++ 47 :: ptail :=
      takeWhile_all (notMem_bne h35r)
    have hhp : (host ++ 47 :: ptail).takeWhile (fun b => b != 47) = host :=
      takeWhile_append_stop host 47 ptail (notMem_bne h47) (by decide)
    have hdp : (host ++ 47 :: ptail).dropWhile (fun b => b != 47) = 47 :: ptail :=
      dropWhile_append_stop host 47 ptail (notMem_bne h47) (by decide)
    simp only [parse_url_tail]
    rw [hrf, hhp, hdp, hhost, hafter]

theorem parse_url_tail_ne (u r hst p q : List Nat)
    (hok : parse_url_tail u r = .ok (hst, p, q)) : q ≠ [] := by
  simp only [parse_url_tail] at hok
  intro hqnil
  subst hqnil
  split at hok
  · injection hok with h
    have hc := congrArg (fun t : List Nat × List Nat × List Nat => t.2.2) h
    simp only at hc
    by_cases hx : (r.takeWhile (fun b => b != 35)).dropWhile (fun b => b != 47) = [] <;>
      simp [hx] at hc
  · split at hok
    · injection hok with h
      have hc := congrArg (fun t : List Nat × List Nat × List Nat => t.2.2) h
      simp only at hc
      by_cases hx : (r.takeWhile (fun b => b != 35)).dropWhile (fun b => b != 47) = [] <;>
        simp [hx] at hc
    · exact Except.noConfusion hok

/-! ## Claim C8 (URL parsing) -/

/-- Claim C8: any URL without the literal `http://` or `https://` prefix
is an `InvalidScheme` failure; every successful parse has a non-empty
path_query; and for well-formed `scheme://host[:port]/path` URLs
(host free of `:`, `/`, `#`; no `#` anywhere; path empty or starting with
`/`), the parser returns the exact host, the exact port string when it
parses as a `u16` (failing with `InvalidPort` otherwise), the scheme
default `80`/`443` when no port is given, and the path, defaulting to
`/` when the URL has no slash after the host. -/
theorem claim_C8 :
    (∀ u, ¬ litBytes ("http://") <+: u → ¬ litBytes ("https://") <+: u →
      parse_url u = .error .invalidScheme) ∧
    (∀ u hst p q, parse_url u = .ok (hst, p, q) → q ≠ []) ∧
    (∀ host portStr path v, 58 ∉ host → 47 ∉ host → 35 ∉ host →
      47 ∉ portStr → 35 ∉ portStr → 35 ∉ path → (path = [] ∨ path.head? = some 47) →
      parseUnsigned 65536 portStr = some v →
      parse_url (litBytes ("http://") ++ (host ++ 58 :: (portStr ++ path)))
        = .ok (host, portStr, if path = [] then [47] else path)) ∧
    (∀ host portStr path, 58 ∉ host → 47 ∉ host → 35 ∉ host →
      47 ∉ portStr → 35 ∉ portStr → 35 ∉ path → (path = [] ∨ path.head? = some 47) →
      parseUnsigned 65536 portStr = none →
      parse_url (litBytes ("http://") ++ (host ++ 58 :: (portStr ++ path)))
        = .error .invalidPort) ∧
    (∀ host portStr path v, 58 ∉ host → 47 ∉ host → 35 ∉ host →
      47 ∉ portStr → 35 ∉ portStr → 35 ∉ path → (path = [] ∨ path.head? = some 47) →
      parseUnsigned 65536 portStr = some v →
      parse_url (litBytes ("https://") ++ (host ++ 58 :: (portStr ++ path)))
        = .ok (host, portStr, if path = [] then [47] else path)) ∧
    (∀ host portStr path, 58 ∉ host → 47 ∉ host → 35 ∉ host →
      47 ∉ portStr → 35 ∉ portStr → 35 ∉ path → (path = [] ∨ path.head? = some 47) →
      parseUnsigned 65536 portStr = none →
      parse_url (litBytes ("https://") ++ (host ++ 58 :: (portStr ++ path)))
        = .error .invalidPort) ∧
    (∀ host path, 58 ∉ host → 47 ∉ host → 35 ∉ host → 35 ∉ path →
      (path = [] ∨ path.head? = some 47) →
      parse_url (litBytes ("http://") ++ (host ++ path))
        = .ok (host, litBytes ("80"), if path = [] then [47] else path)) ∧
    (∀ host path, 58 ∉ host → 47 ∉ host → 35 ∉ host → 35 ∉ path →
      (path = [] ∨ path.head? = some 47) →
      parse_url (litBytes ("https://") ++ (host ++ path))
        = .ok (host, litBytes ("443"), if path = [] then [47] else path)) := by
  have hhttp : ∀ X : List Nat, parse_url (litBytes ("http://") ++ X)
      = parse_url_tail (litBytes ("http://") ++ X) X := by
    intro X
    simp only [parse_url, isPrefixOf_self_append, if_true]
    rw [List.drop_left' (by decide)]
  have hhttps : ∀ X : List Nat, parse_url (litBytes ("https://") ++ X)
      = parse_url_tail (litBytes ("https://") ++ X) X := by
    intro X
    simp only [parse_url, http_not_before_https, Bool.false_eq_true, if_false,
      isPrefixOf_self_append, if_true]
    rw [List.drop_left' (by decide)]
  refine ⟨?_, ?_, ?_, ?_, ?_, ?_, ?_, ?_⟩
  · intro u h1 h2
    have b1 : (litBytes ("http://")).isPrefixOf u = false := by
      cases hv : (litBytes ("http://")).isPrefixOf u with
      | false => rfl
      | true => exact absurd (List.isPrefixOf_iff_prefix.mp hv) h1
    have b2 : (litBytes ("https://")).isPrefixOf u = false := by
      cases hv : (litBytes ("https://")).isPrefixOf u with
      | false => rfl
      | true => exact absurd (List.isPrefixOf_iff_prefix.mp hv) h2
    simp [parse_url, b1, b2]
  · intro u hst p q hok
    simp only [parse_url] at hok
    by_cases c1 : (litBytes ("http://")).isPrefixOf u = true
    · rw [if_pos c1] at hok
      exact parse_url_tail_ne u _ hst p q hok
    · rw [if_neg c1] at hok
      by_cases c2 : (litBytes ("https://")).isPrefixOf u = true
      · rw [if_pos c2] at hok
        exact parse_url_tail_ne u _ hst p q hok
      · rw [if_neg c2] at hok
        exact Except.noConfusion hok
  · intro host portStr path v h58 h47 h35 hp47 hp35 hq35 hform hpu
    rw [hhttp, parse_url_tail_colon _ host portStr path h58 h47 h35 hp47 hp35 hq35 hform, hpu]
  · intro host portStr path h58 h47 h35 hp47 hp35 hq35 hform hpu
    rw [hhttp, parse_url_tail_colon _ host portStr path h58 h47 h35 hp47 hp35 hq35 hform, hpu]
  · intro host portStr path v h58 h47 h35 hp47 hp35 hq35 hform hpu
    rw [hhttps, parse_url_tail_colon _ host portStr path h58 h47 h35 hp47 hp35 hq35 hform, hpu]
  · intro host portStr path h58 h47 h35 hp47 hp35 hq35 hform hpu
    rw [hhttps, parse_url_tail_colon _ host portStr path h58 h47 h35 hp47 hp35 hq35 hform, hpu]
  · intro host path h58 h47 h35 hq35 hform
    rw [hhttp, parse_url_tail_nocolon _ host path h58 h47 h35 hq35 hform,
      https_not_before_http]
    simp
  · intro host path h58 h47 h35 hq35 hform
    rw [hhttps, parse_url_tail_nocolon _ host path h58 h47 h35 hq35 hform,
      isPrefixOf_self_append]
    simp

/-- Concrete instances of claim C8: a bad scheme fails, an explicit port
is recovered exactly, a bad port fails, and a port-less https URL
defaults to 443 with path defaulting to `/`. -/
theorem claim_C8_witness :
    parse_url (litBytes ("ftp://x/")) = .error .invalidScheme ∧
    parse_url (litBytes ("http://") ++ (litBytes ("example.com")
        ++ 58 :: (litBytes ("8080") ++ litBytes ("/x?q=1"))))
      = .ok (litBytes ("example.com"), litBytes ("8080"),
          if litBytes ("/x?q=1") = [] then [47] else litBytes ("/x?q=1")) ∧
    parse_url (litBytes ("http://") ++ (litBytes ("h") ++ 58 :: (litBytes ("9x") ++ [])))
      = .error .invalidPort ∧
    parse_url (litBytes ("https://") ++ (litBytes ("example.com") ++ []))
      = .ok (litBytes ("example.com"), litBytes ("443"),
          if ([] : List Nat) = [] then [47] else []) :=
  ⟨claim_C8.1 (litBytes ("ftp://x/"))
     (fun hp => by
       obtain ⟨t, ht⟩ := hp
       have h0 : (litBytes ("http://") ++ t)[0]? = (litBytes ("ftp://x/"))[0]? := by rw [ht]
       rw [List.getElem?_append_left (by decide)] at h0
       simp [litBytes] at h0)
     (fun hp => by
       obtain ⟨t, ht⟩ := hp
       have h0 : (litBytes ("https://") ++ t)[0]? = (litBytes ("ftp://x/"))[0]? := by rw [ht]
       rw [List.getElem?_append_left (by decide)] at h0
       simp [litBytes] at h0),
   claim_C8.2.2.1 (litBytes ("example.com")) (litBytes ("8080")) (litBytes ("/x?q=1")) 8080
     (by decide) (by decide) (by decide) (by decide) (by decide) (by decide)
     (Or.inr (by decide)) (by decide),
   claim_C8.2.2.2.1 (litBytes ("h")) (litBytes ("9x")) [] (by decide) (by decide) (by decide)
     (by decide) (by decide) (by decide) (Or.inl rfl) (by decide),
   claim_C8.2.2.2.2.2.2.2 (litBytes ("example.com")) [] (by decide) (by decide) (by decide)
     (by decide) (Or.inl rfl)⟩

/-! ## main control-flow lemmas -/

theorem applyDefault_show_help (st : ArgState) :
    (applyDefault st).show_help = st.show_help := by
  simp only [applyDefault]
  split <;> rfl

theorem applyDefault_url (st : ArgState) : (applyDefault st).url = st.url := by
  simp only [applyDefault]
  split <;> rfl

theorem runMain_ok (args : List (List Nat)) (st : ArgState)
    (r : List Nat → Except (List Nat) (List (List Nat))) (s : Except (List Nat) Unit)
    (hparse : parseLoop args initArgState = .ok st) :
    runMain args r s =
      (if (applyDefault st).show_help then .ok ()
       else if (applyDefault st).url = [] then .error (-1)
       else
         match parse_url (applyDefault st).url with
         | .error _ => .error (-1)
         | .ok v =>
           match r v.1 with
           | .error _ => .error (-1)
           | .ok ips =>
             if ips = [] then .error (-1)
             else
               match s with
               | .ok _ => .ok ()
               | .error _ => .error (-1)) := by
  simp only [runMain, hparse]

/-! ## Claim C9 (corrected: multiple positional URLs are not rejected) -/

/-- A resolver stub returning one address, used to drive the
counterexample run to completion. -/
def stubResolve : List Nat → Except (List Nat) (List (List Nat)) := fun _ => .ok [[49]]

/-- Claim C9 counterexample: an invocation with two positional URLs is
not rejected; the loop silently overwrites the first URL with the second
and the run can complete with exit code 0 using the second URL. -/
theorem claim_C9_cex :
    parseLoop [litBytes ("http://a/"), litBytes ("http://b/")] initArgState
      = .ok { initArgState with url := litBytes ("http://b/") } ∧
    runMain [litBytes ("http://a/"), litBytes ("http://b/")] stubResolve (.ok ())
      = .ok () :=
  ⟨rfl, rfl⟩

/-- Claim C9 (amended): an unrecognised `-`-prefixed argument is rejected
wherever it is reached, any argument-loop failure exits non-zero, `-h`
exits 0 whatever the network oracles would do, a missing URL exits
non-zero, every later-stage failure (URL parse, resolution, empty address
list, transmission) exits non-zero, and a positional argument simply
overwrites the URL slot (several positional URLs are accepted, the last
one winning). -/
theorem claim_C9 :
    (∀ (st : ArgState) (a : List Nat) rest, a.head? = some 45 →
      a ≠ litBytes ("-h") → a ≠ litBytes ("-H") → a ≠ litBytes ("-X") →
      a ≠ litBytes ("-d") → a ≠ litBytes ("-i") →
      parseLoop (a :: rest) st = .error ()) ∧
    (∀ args r s, parseLoop args initArgState = .error () →
      runMain args r s = .error (-1)) ∧
    (∀ args st r s, parseLoop args initArgState = .ok st → st.show_help = true →
      runMain args r s = .ok ()) ∧
    (∀ args st r s, parseLoop args initArgState = .ok st → st.show_help = false →
      st.url = [] → runMain args r s = .error (-1)) ∧
    (∀ args st r s e, parseLoop args initArgState = .ok st → st.show_help = false →
      st.url ≠ [] → parse_url st.url = .error e → runMain args r s = .error (-1)) ∧
    (∀ args st r s v m, parseLoop args initArgState = .ok st → st.show_help = false →
      st.url ≠ [] → parse_url st.url = .ok v → r v.1 = .error m →
      runMain args r s = .error (-1)) ∧
    (∀ args st r s v, parseLoop args initArgState = .ok st → st.show_help = false →
      st.url ≠ [] → parse_url st.url = .ok v → r v.1 = .ok [] →
      runMain args r s = .error (-1)) ∧
    (∀ args st r v ips m, parseLoop args initArgState = .ok st → st.show_help = false →
      st.url ≠ [] → parse_url st.url = .ok v → r v.1 = .ok ips → ips ≠ [] →
      runMain args r (.error m) = .error (-1)) ∧
    (∀ (st : ArgState) (u : List Nat) rest, u.head? ≠ some 45 →
      parseLoop (u :: rest) st = parseLoop rest { st with url := u }) := by
  have hflag : ∀ (u : List Nat), u.head? ≠ some 45 →
      u ≠ litBytes ("-h") ∧ u ≠ litBytes ("-H") ∧ u ≠ litBytes ("-X") ∧
      u ≠ litBytes ("-d") ∧ u ≠ litBytes ("-i") := by
    intro u hh
    refine ⟨?_, ?_, ?_, ?_, ?_⟩ <;>
      exact fun he => hh (by rw [he]; decide)
  refine ⟨?_, ?_, ?_, ?_, ?_, ?_, ?_, ?_, ?_⟩
  · intro st a rest hh h1 h2 h3 h4 h5
    cases rest with
    | nil =>
      rw [parseLoop_one, if_neg h1, if_neg h2, if_neg h3, if_neg h4, if_neg h5, if_pos hh]
    | cons v rest2 =>
      rw [parseLoop_two, if_neg h1, if_neg h2, if_neg h3, if_neg h4, if_neg h5, if_pos hh]
  · intro args r s hparse
    simp only [runMain, hparse]
  · intro args st r s hparse hhelp
    rw [runMain_ok args st r s hparse, applyDefault_show_help, hhelp]
    simp
  · intro args st r s hparse hhelp hurl
    rw [runMain_ok args st r s hparse, applyDefault_show_help, hhelp, applyDefault_url, hurl]
    simp
  · intro args st r s e hparse hhelp hurl hpe
    rw [runMain_ok args st r s hparse, applyDefault_show_help, hhelp, applyDefault_url, hpe]
    simp [hurl]
  · intro args st r s v m hparse hhelp hurl hpu hre
    rw [runMain_ok args st r s hparse, applyDefault_show_help, hhelp, applyDefault_url, hpu]
    simp [hurl, hre]
  · intro args st r s v hparse hhelp hurl hpu hre
    rw [runMain_ok args st r s hparse, applyDefault_show_help, hhelp, applyDefault_url, hpu]
    simp [hurl, hre]
  · intro args st r v ips m hparse hhelp hurl hpu hre hips
    rw [runMain_ok args st r (.error m) hparse, applyDefault_show_help, hhelp,
      applyDefault_url, hpu]
    simp [hurl, hre, hips]
  · intro st u rest hh
    obtain ⟨h1, h2, h3, h4, h5⟩ := hflag u hh
    cases rest with
    | nil =>
      rw [parseLoop_one, if_neg h1, if_neg h2, if_neg h3, if_neg h4, if_neg h5, if_neg hh]
    | cons v rest2 =>
      rw [parseLoop_two, if_neg h1, if_neg h2, if_neg h3, if_neg h4, if_neg h5, if_neg hh]

/-- Concrete instances of claim C9: the unknown flag `-z` is rejected and
exits non-zero, `-h` exits 0 whatever the oracles, a lone `-i` (no URL)
exits non-zero, and a positional argument fills the URL slot. -/
theorem claim_C9_witness :
    parseLoop [litBytes ("-z")] initArgState = .error () ∧
    runMain [litBytes ("-z")] stubResolve (.error []) = .error (-1) ∧
    runMain [litBytes ("-h")] stubResolve (.error []) = .ok () ∧
    runMain [litBytes ("-i")] stubResolve (.error []) = .error (-1) ∧
    parseLoop [litBytes ("http://h/")] initArgState
      = parseLoop [] { initArgState with url := litBytes ("http://h/") } :=
  ⟨claim_C9.1 initArgState (litBytes ("-z")) [] (by decide) (by decide) (by decide)
     (by decide) (by decide) (by decide),
   claim_C9.2.1 [litBytes ("-z")] stubResolve (.error []) rfl,
   claim_C9.2.2.1 [litBytes ("-h")] { initArgState with show_help := true } stubResolve
     (.error []) rfl rfl,
   claim_C9.2.2.2.1 [litBytes ("-i")] { initArgState with include_headers := true }
     stubResolve (.error []) rfl rfl rfl,
   claim_C9.2.2.2.2.2.2.2.2 initArgState (litBytes ("http://h/")) [] (by decide)⟩

end HttpClient
